import Mathlib

/-!
Verification of the SimpleAgent core pipeline (query classification,
provider orchestration, response parsing, fallback synthesis) against its
natural-language specification.

Text is modelled as `List Char`; Python string primitives (`lower`,
`strip`, `split`, `join`, `replace`, substring membership, `startswith`,
`endswith`) are embedded as executable functions on character lists, and
Python dicts (insertion-ordered, update-in-place) as association lists.
-/

namespace SimpleAgent

/-- Abbreviation turning a Lean string literal into the character-list text model. -/
def s (x : String) : List Char := x.toList

/-- Python `str.lower()` restricted to the ASCII range used by the agent. -/
def lowerL (l : List Char) : List Char := l.map Char.toLower

/-- The whitespace characters stripped by Python `str.strip()` (ASCII range). -/
def isPySpace (c : Char) : Bool :=
  c = ' ' || c = '\t' || c = '\n' || c = '\x0b' || c = '\x0c' || c = '\r'

/-- Python `str.strip()`: drop leading and trailing whitespace characters. -/
def stripChars (l : List Char) : List Char :=
  ((l.dropWhile isPySpace).reverse.dropWhile isPySpace).reverse

/-- Python truthiness of an optional string (`None` and `""` are falsy). -/
def truthy : Option (List Char) → Bool
  | none => false
  | some c => !c.isEmpty

/-- Python `needle in hay` substring test. -/
def occursIn (pat : List Char) : List Char → Bool
  | [] => pat.isEmpty
  | c :: rest => pat.isPrefixOf (c :: rest) || occursIn pat rest

/-- Python `str.split(sep)` for a one-character separator: splits at every
occurrence, keeping empty pieces. -/
def splitOnChar (sep : Char) : List Char → List (List Char)
  | [] => [[]]
  | c :: rest =>
    if c = sep then [] :: splitOnChar sep rest
    else
      match splitOnChar sep rest with
      | [] => [[c]]
      | p :: ps => (c :: p) :: ps

/-- Python `sep.join(parts)`. -/
def joinWith (sep : List Char) : List (List Char) → List Char
  | [] => []
  | [p] => p
  | p :: rest => p ++ sep ++ joinWith sep rest

/-- Python `"\n".join(parts)`. -/
def joinNl (parts : List (List Char)) : List Char := joinWith (s "\n") parts

/-- Structural worker for `pyReplace`: the fuel starts at the text length
and every step consumes at least one character, so it never runs out. -/
def pyReplaceAux (old new : List Char) : Nat → List Char → List Char
  | 0, l => l
  | _ + 1, [] => []
  | fuel + 1, c :: rest =>
    if !old.isEmpty && old.isPrefixOf (c :: rest) then
      new ++ pyReplaceAux old new fuel (rest.drop (old.length - 1))
    else c :: pyReplaceAux old new fuel rest

/-- Python `str.replace(old, new)`: replace every non-overlapping occurrence,
left to right (the agent only calls it with a non-empty `old`). -/
def pyReplace (old new l : List Char) : List Char :=
  pyReplaceAux old new l.length l

/-- Python `str.capitalize()`. -/
def pyCapitalize : List Char → List Char
  | [] => []
  | c :: rest => c.toUpper :: lowerL rest

/-- Code-indicating keywords of `SimpleAgent._analyze_query`. -/
def codeKeywords : List (List Char) :=
  [s "create", s "build", s "develop", s "implement", s "write code",
   s "application", s "app", s "program", s "script", s "function",
   s "api", s "service", s "website", s "web app", s "database",
   s "class", s "module", s "package", s "framework"]

/-- Explanation-indicating keywords of `SimpleAgent._analyze_query`. -/
def textKeywords : List (List Char) :=
  [s "explain", s "what is", s "how does", s "describe", s "tell me about",
   s "information", s "definition", s "concept", s "theory"]

/-- `sum(1 for keyword in kws if keyword in queryLower)`. -/
def keywordScore (kws : List (List Char)) (queryLower : List Char) : Nat :=
  (kws.filter (fun k => occursIn k queryLower)).length

/-- The language→keyword table of `SimpleAgent._detect_language`, in source order. -/
def languageKeywordTable : List (List Char × List (List Char)) :=
  [(s "python", [s "python", s "py", s "django", s "flask", s "fastapi"]),
   (s "javascript", [s "javascript", s "js", s "node", s "react", s "vue", s "angular"]),
   (s "typescript", [s "typescript", s "ts"]),
   (s "java", [s "java", s "spring", s "maven"]),
   (s "go", [s "go", s "golang"]),
   (s "rust", [s "rust"]),
   (s "cpp", [s "c++", s "cpp"]),
   (s "c", [s "c programming", s "c language"])]

/-- First-match-wins walk of the language table. -/
def detectLanguageAux (queryLower : List Char) : List (List Char × List (List Char)) → List Char
  | [] => s "python"
  | (lang, kws) :: rest =>
    if kws.any (fun k => occursIn k queryLower) then lang
    else detectLanguageAux queryLower rest

/-- `SimpleAgent._detect_language`: first matching table entry, default python. -/
def detectLanguage (query : List Char) : List Char :=
  detectLanguageAux (lowerL query) languageKeywordTable

/-- The keyword→framework table of `SimpleAgent._detect_framework`, in source order. -/
def frameworkTable : List (List Char × List Char) :=
  [(s "django", s "django"), (s "flask", s "flask"), (s "fastapi", s "fastapi"),
   (s "react", s "react"), (s "vue", s "vue"), (s "angular", s "angular"),
   (s "express", s "express"), (s "spring", s "spring")]

/-- First-match-wins walk of the framework table. -/
def detectFrameworkAux (queryLower : List Char) : List (List Char × List Char) → Option (List Char)
  | [] => none
  | (k, fw) :: rest =>
    if occursIn k queryLower then some fw else detectFrameworkAux queryLower rest

/-- `SimpleAgent._detect_framework`: first matching keyword, else `None`. -/
def detectFramework (query : List Char) : Option (List Char) :=
  detectFrameworkAux (lowerL query) frameworkTable

/-- The Analysis record produced by `SimpleAgent._analyze_query`. -/
structure Analysis where
  shouldGenerateCode : Bool
  codeScore : Nat
  textScore : Nat
  language : List Char
  framework : Option (List Char)
  reason : List Char
deriving Repr, DecidableEq

/-- `SimpleAgent._analyze_query`: score the two keyword vocabularies over the
lower-cased query, decide `code_score > text_score and code_score > 0`, and
detect language and framework. -/
def analyzeQuery (query : List Char) : Analysis :=
  let queryLower := lowerL query
  let cs := keywordScore codeKeywords queryLower
  let ts := keywordScore textKeywords queryLower
  let sgc := decide (cs > ts) && decide (cs > 0)
  { shouldGenerateCode := sgc
    codeScore := cs
    textScore := ts
    language := detectLanguage query
    framework := detectFramework query
    reason := if sgc then s "Code generation suitable"
              else s "Query better suited for text response" }

/-- One line of the per-file line counts in `SimpleAgent._is_fallback_code`:
non-blank and not a `#` or `//` comment after stripping. -/
def isCodeLine (l : List Char) : Bool :=
  !(stripChars l).isEmpty &&
    !((s "#").isPrefixOf (stripChars l)) && !((s "//").isPrefixOf (stripChars l))

/-- The per-file count `len([line for line in content.split(newline) if ...])`
of `SimpleAgent._is_fallback_code`. -/
def codeLineCount (content : List Char) : Nat :=
  ((splitOnChar '\n' content).filter isCodeLine).length

/-- The `fallback_patterns` list of `SimpleAgent._is_fallback_code`. -/
def fallbackPatterns : List (List Char) :=
  [s "Hello, World", s "TODO: Implement", s "basic template",
   s "placeholder", s "print(\x27Hello"]

/-- The declaration keywords checked by `SimpleAgent._is_fallback_code`
(case-sensitively, on the raw content). -/
def declKeywords : List (List Char) :=
  [s "def ", s "class ", s "function ", s "const ", s "let ", s "var "]

/-- The test `any(pattern.lower() in content_lower for pattern in fallback_patterns)`. -/
def placeholderHit (content : List Char) : Bool :=
  fallbackPatterns.any (fun p => occursIn (lowerL p) (lowerL content))

/-- The early-exit test of `_is_fallback_code` for one file: over 200
characters, or a declaration keyword together with more than five
non-comment, non-blank lines. -/
def substantialFile (content : List Char) : Bool :=
  decide (content.length > 200) ||
    (declKeywords.any (fun k => occursIn k content) && decide (codeLineCount content > 5))

/-- Summed non-comment/non-blank line count across all files. -/
def totalCodeLines (files : List (List Char × List Char)) : Nat :=
  (files.map (fun kv => codeLineCount kv.2)).sum

/-- `SimpleAgent._is_fallback_code`: empty files are fallback; a file that
matches a placeholder pattern and is substantial forces an early
not-fallback verdict; otherwise the verdict is `total_code_lines < 10`. -/
def isFallbackCode (files : List (List Char × List Char)) : Bool :=
  if files = [] then true
  else if files.any (fun kv => placeholderHit kv.2 && substantialFile kv.2) then false
  else decide (totalCodeLines files < 10)

/-- The quality gate exactly as claim C1 words it (spec side, for comparison
with `isFallbackCode`): empty files; or every file matches one of the four
placeholder phrases and is under 200 characters or has no declaration keyword
with more than five non-comment lines; or fewer than 10 total code lines. -/
def specC1FallbackQuality (files : List (List Char × List Char)) : Bool :=
  files.isEmpty ||
    files.all (fun kv =>
      ([s "hello, world", s "todo: implement", s "basic template",
        s "placeholder"].any (fun p => occursIn p (lowerL kv.2))) &&
      (decide (kv.2.length < 200) ||
        !(declKeywords.any (fun k => occursIn k kv.2) && decide (codeLineCount kv.2 > 5)))) ||
    decide (totalCodeLines files < 10)

/-- A single file that contains the word placeholder, is 65 characters long,
has no declaration keyword, and has exactly 10 non-comment lines. -/
def c1CexFiles : List (List Char × List Char) :=
  [(s "main.py",
    s "placeholder\na = 1\na = 1\na = 1\na = 1\na = 1\na = 1\na = 1\na = 1\na = 1")]

/-- The commit step of `SimpleAgent._parse_codebase_response`:
`files[current_file] = backslash-n.join(current_content).strip()`. -/
def commitContent (lines : List (List Char)) : List Char :=
  stripChars (joinNl lines)

/-- A blank line in the sense of the spec's whitespace policy. -/
def blankLine (l : List Char) : Bool := (stripChars l).isEmpty

/-- The commit step exactly as claim C3 words it (spec side, for comparison
with `commitContent`): drop leading and trailing blank lines only, keep the
remaining lines verbatim. -/
def specC3Commit (lines : List (List Char)) : List Char :=
  joinNl (((lines.dropWhile blankLine).reverse.dropWhile blankLine).reverse)

/-- A one-line buffer whose single line carries leading and trailing spaces. -/
def c3CexLines : List (List Char) := [s "  keep  "]

/-- The nested-dict structure built by `SimpleAgent._build_structure_tree`:
each value is either the leaf marker string (`file`) or a sub-dict. -/
inductive STree where
  | file : STree
  | dir : List (List Char × STree) → STree

/-- Python dict lookup on an insertion-ordered association list. -/
def dictGet? {V : Type} : List (List Char × V) → List Char → Option V
  | [], _ => none
  | (k, v) :: rest, key => if k = key then some v else dictGet? rest key

/-- Python dict assignment: update in place if the key exists, else append. -/
def dictSet {V : Type} : List (List Char × V) → List Char → V → List (List Char × V)
  | [], key, v => [(key, v)]
  | (k, w) :: rest, key, v =>
    if k = key then (k, v) :: rest else (k, w) :: dictSet rest key v

/-- One iteration of the loop in `SimpleAgent._build_structure_tree`: walk the
interior segments (creating empty sub-dicts for missing ones), then mark the
final segment as a leaf. Descending into an already-placed leaf marker is the
`TypeError` branch: Python indexes into a string. -/
def insertPath : STree → List (List Char) → Except Unit STree
  | .file, _ => .error ()
  | .dir _, [] => .error ()
  | .dir d, [x] => .ok (.dir (dictSet d x .file))
  | .dir d, x :: y :: rest =>
    match dictGet? d x with
    | some u =>
      match insertPath u (y :: rest) with
      | .ok v => .ok (.dir (dictSet d x v))
      | .error e => .error e
    | none =>
      match insertPath (.dir []) (y :: rest) with
      | .ok v => .ok (.dir (dictSet d x v))
      | .error e => .error e

/-- Follow a segment path down a structure tree. -/
def resolve : STree → List (List Char) → Option STree
  | t, [] => some t
  | .file, _ :: _ => none
  | .dir d, x :: rest =>
    match dictGet? d x with
    | some u => resolve u rest
    | none => none

/-- The loop of `SimpleAgent._build_structure_tree` over the file paths. -/
def buildTreeAux : STree → List (List Char) → Except Unit STree
  | t, [] => .ok t
  | t, k :: rest =>
    match insertPath t (splitOnChar '/' k) with
    | .ok t2 => buildTreeAux t2 rest
    | .error e => .error e

/-- `SimpleAgent._build_structure_tree` on a list of file paths: start from an
empty dict and insert every path split on the path separator. -/
def buildTreeKeys (keys : List (List Char)) : Except Unit STree :=
  buildTreeAux (.dir []) keys

/-- `SimpleAgent._build_structure_tree` on a files mapping. -/
def buildStructureTree (files : List (List Char × List Char)) : Except Unit STree :=
  buildTreeKeys (files.map Prod.fst)

/-- The `ext_map` of the single-pass scanner in `_parse_codebase_response`. -/
def scannerExtMap : List (List Char × List Char) :=
  [(s "python", s "py"), (s "py", s "py"),
   (s "javascript", s "js"), (s "js", s "js"),
   (s "typescript", s "ts"), (s "ts", s "ts"),
   (s "html", s "html"), (s "css", s "css"),
   (s "json", s "json"), (s "yaml", s "yml"), (s "yml", s "yml"),
   (s "markdown", s "md"), (s "md", s "md")]

/-- `ext_map.get(code_block_lang.lower(), 'txt')` in the scanner. -/
def extOfScanner (lang : List Char) : List Char :=
  (dictGet? scannerExtMap (lowerL lang)).getD (s "txt")

/-- The smaller `ext_map` of `_parse_alternative_format`. -/
def altExtMap : List (List Char × List Char) :=
  [(s "python", s "py"), (s "py", s "py"),
   (s "javascript", s "js"), (s "js", s "js"),
   (s "typescript", s "ts"), (s "ts", s "ts"),
   (s "html", s "html"), (s "css", s "css"), (s "json", s "json")]

/-- `ext_map.get(lang.lower(), 'txt')` in `_parse_alternative_format`. -/
def extOfAlt (lang : List Char) : List Char :=
  (dictGet? altExtMap (lowerL lang)).getD (s "txt")

/-- The mutable scanner state of `_parse_codebase_response`. -/
structure ScanState where
  files : List (List Char × List Char)
  currentFile : Option (List Char)
  currentContent : List (List Char)
  inCodeBlock : Bool

/-- The initial scanner state. -/
def emptyScanState : ScanState :=
  { files := [], currentFile := none, currentContent := [], inCodeBlock := false }

/-- One iteration of the line loop of `_parse_codebase_response`. -/
def scanLine (st : ScanState) (line : List Char) : ScanState :=
  if (s "FILE:").isPrefixOf (stripChars line) then
    let files1 :=
      match st.currentFile with
      | some cf =>
        if !cf.isEmpty then dictSet st.files cf (commitContent st.currentContent)
        else st.files
      | none => st.files
    { files := files1
      currentFile := some (stripChars (pyReplace (s "FILE:") [] line))
      currentContent := []
      inCodeBlock := false }
  else if (s "```").isPrefixOf (stripChars line) then
    if !st.inCodeBlock then
      let lang := stripChars ((stripChars line).drop 3)
      if truthy st.currentFile && st.currentContent.isEmpty then
        { st with inCodeBlock := true }
      else if !(truthy st.currentFile) then
        if !lang.isEmpty then
          let ext := extOfScanner lang
          if occursIn (s "main") (lowerL lang) || !(truthy st.currentFile) then
            { st with inCodeBlock := true, currentFile := some (s "main." ++ ext) }
          else
            { st with inCodeBlock := true, currentFile := some (s "file." ++ ext) }
        else { st with inCodeBlock := true }
      else { st with inCodeBlock := true }
    else
      if truthy st.currentFile then
        let files1 :=
          if !st.currentContent.isEmpty then
            match st.currentFile with
            | some cf => dictSet st.files cf (commitContent st.currentContent)
            | none => st.files
          else st.files
        { files := files1, currentFile := none, currentContent := [], inCodeBlock := false }
      else { st with inCodeBlock := false }
  else if truthy st.currentFile then
    { st with currentContent := st.currentContent ++ [line] }
  else if !(stripChars line).isEmpty && !((s "```").isPrefixOf line) && !st.inCodeBlock then
    if !(st.files.any (fun kv =>
        (s "README").isPrefixOf kv.1 || (s ".md").isSuffixOf kv.1)) then
      match dictGet? st.files (s "README.md") with
      | none => { st with files := dictSet st.files (s "README.md") line }
      | some old =>
        { st with files := dictSet st.files (s "README.md") (old ++ s "\n" ++ line) }
    else st
  else st

/-- The line loop of `_parse_codebase_response` plus the final flush of a
still-open file with buffered content. -/
def parseScan (content : List Char) : List (List Char × List Char) :=
  let st := (splitOnChar '\n' content).foldl scanLine emptyScanState
  if truthy st.currentFile && !st.currentContent.isEmpty then
    match st.currentFile with
    | some cf => dictSet st.files cf (commitContent st.currentContent)
    | none => st.files
  else st.files

/-- A word character of the `\w` class in the alternative-format regex. -/
def isWordChar (c : Char) : Bool := c.isAlpha || c.isDigit || c = '_'

/-- Split a text around its first triple-backtick fence, if any. -/
def splitAtFence? : List Char → Option (List Char × List Char)
  | [] => none
  | c :: rest =>
    if (s "```").isPrefixOf (c :: rest) then some ([], (c :: rest).drop 3)
    else
      match splitAtFence? rest with
      | some (b, a) => some (c :: b, a)
      | none => none

/-- The part after the first fence is shorter by at least the fence itself
(termination measure for the fence scanners). -/
theorem splitAtFence_length : ∀ (l b a : List Char),
    splitAtFence? l = some (b, a) → a.length + 3 ≤ l.length := by
  intro l
  induction l with
  | nil => intro b a h; simp [splitAtFence?] at h
  | cons c rest ih =>
    intro b a h
    simp only [splitAtFence?] at h
    by_cases hp : (s "```").isPrefixOf (c :: rest) = true
    · rw [if_pos hp] at h
      simp only [Option.some.injEq, Prod.mk.injEq] at h
      have hlen : (s "```").length ≤ (c :: rest).length := by
        obtain ⟨t, ht⟩ := List.isPrefixOf_iff_prefix.mp hp
        rw [← ht]
        simp
      rw [← h.2]
      simp only [List.length_drop, List.length_cons]
      have h3 : (s "```").length = 3 := by decide
      simp only [List.length_cons, h3] at hlen
      omega
    · rw [if_neg hp] at h
      cases hr : splitAtFence? rest with
      | none => rw [hr] at h; simp at h
      | some ba =>
        obtain ⟨b2, a2⟩ := ba
        rw [hr] at h
        simp only [Option.some.injEq, Prod.mk.injEq] at h
        have := ih b2 a2 hr
        rw [← h.2]
        simp only [List.length_cons]
        omega

/-- `dropWhile` never lengthens a list. -/
theorem dropWhile_length_le (p : Char → Bool) (l : List Char) :
    (l.dropWhile p).length ≤ l.length := by
  induction l with
  | nil => simp [List.dropWhile]
  | cons a t ih =>
    rw [List.dropWhile_cons]
    by_cases hp : p a = true
    · rw [if_pos hp]
      simp only [List.length_cons]
      omega
    · rw [if_neg hp]

/-- The block extraction of `_parse_alternative_format`:
`re.findall` of a fence, an optional word-character language tag, a newline,
then a lazy body up to the next fence, scanning left to right. -/
def codeBlocks (l : List Char) : List (List Char × List Char) :=
  match l with
  | [] => []
  | c :: rest =>
    if (s "```").isPrefixOf (c :: rest) then
      match hdw : ((c :: rest).drop 3).dropWhile isWordChar with
      | '\n' :: body =>
        match hsf : splitAtFence? body with
        | some (code, afterClose) =>
          (((c :: rest).drop 3).takeWhile isWordChar, code) :: codeBlocks afterClose
        | none => codeBlocks rest
      | _ => codeBlocks rest
    else codeBlocks rest
termination_by l.length
decreasing_by
  · have h1 := splitAtFence_length body code afterClose hsf
    have h2 : body.length + 1 ≤ ((c :: rest).drop 3).length := by
      have := dropWhile_length_le isWordChar ((c :: rest).drop 3)
      rw [hdw] at this
      simpa using this
    simp only [List.length_drop, List.length_cons] at h2 ⊢
    omega
  · simp
  · simp
  · simp

/-- The `re.split` of `_parse_alternative_format`: cut out every lazily
matched fence pair, left to right, keeping the text between matches. -/
def splitFencePairs (l : List Char) : List (List Char) :=
  match hsf : splitAtFence? l with
  | none => [l]
  | some (before, after) =>
    match hsf2 : splitAtFence? after with
    | none => [l]
    | some (mid, after2) => before :: splitFencePairs after2
termination_by l.length
decreasing_by
  · have h1 := splitAtFence_length l before after hsf
    have h2 := splitAtFence_length after mid after2 hsf2
    omega

/-- The file name given to the i-th extracted block in
`_parse_alternative_format`. -/
def altFileName (i : Nat) (ext : List Char) : List Char :=
  if i = 0 then s "main." ++ ext
  else s "file_" ++ Nat.toDigits 10 i ++ s "." ++ ext

/-- `SimpleAgent._parse_alternative_format`: name every fenced block from its
language tag (falling back to the analysis language), and collect the
stripped non-fence text as a `README.md` when it exceeds 50 characters. -/
def parseAlternativeFormat (content : List Char) (a : Analysis) :
    List (List Char × List Char) :=
  let blocks := codeBlocks content
  let files := blocks.enum.foldl (fun acc p =>
    let lang := if p.2.1.isEmpty then a.language else p.2.1
    dictSet acc (altFileName p.1 (extOfAlt lang)) (stripChars p.2.2)) []
  let parts := (splitFencePairs content).map stripChars
  let kept := parts.filter (fun q => !q.isEmpty && !((s "FILE:").isPrefixOf q))
  let readmeText := joinWith (s "\n\n") kept
  if !readmeText.isEmpty && decide (readmeText.length > 50) then
    dictSet files (s "README.md") readmeText
  else files

/-- Lexicographic (code-point) order on text, as Python string comparison. -/
def lexLe : List Char → List Char → Bool
  | [], _ => true
  | _ :: _, [] => false
  | a :: as2, b :: bs => if a = b then lexLe as2 bs else decide (a.val < b.val)

/-- Stable insertion into a sorted list. -/
def insertSorted (k : List Char) : List (List Char) → List (List Char)
  | [] => [k]
  | x :: rest => if lexLe k x then k :: x :: rest else x :: insertSorted k rest

/-- Python `sorted` on a list of strings. -/
def sortKeys (ks : List (List Char)) : List (List Char) :=
  ks.foldr insertSorted []

/-- The entry-point detection of `_generate_comprehensive_readme`: first a
key ending in `main.py`/`main.js`/`main.ts` or equal to `app.py`/`index.js`,
then any `.py`/`.js`/`.ts` key. -/
def findMainFile (files : List (List Char × List Char)) : Option (List Char) :=
  match files.find? (fun kv =>
      (s "main.py").isSuffixOf kv.1 || (s "main.js").isSuffixOf kv.1 ||
      (s "main.ts").isSuffixOf kv.1 || kv.1 = s "app.py" || kv.1 = s "index.js") with
  | some kv => some kv.1
  | none =>
    match files.find? (fun kv =>
        (s ".py").isSuffixOf kv.1 || (s ".js").isSuffixOf kv.1 ||
        (s ".ts").isSuffixOf kv.1) with
    | some kv => some kv.1
    | none => none

/-- The web-app detection of `_generate_comprehensive_readme`. -/
def isWebApp (files : List (List Char × List Char)) (framework : Option (List Char)) : Bool :=
  files.any (fun kv =>
    occursIn (s "app") (lowerL kv.1) || occursIn (s "server") (lowerL kv.1) ||
      occursIn (s "api") (lowerL kv.1)) ||
  (match framework with
   | some f => f = s "fastapi" || f = s "flask" || f = s "express" || f = s "react"
   | none => false)

/-- Python `framework == "name"` for an optional framework. -/
def fwIs (framework : Option (List Char)) (name : List Char) : Bool :=
  match framework with
  | some f => f = name
  | none => false

/-- `SimpleAgent._generate_comprehensive_readme`: the README synthesized when
a parsed result lacks one, assembled from the produced file names, detected
language and framework. -/
def generateComprehensiveReadme (files : List (List Char × List Char))
    (language : List Char) (framework : Option (List Char)) : List Char :=
  let mainFile := findMainFile files
  let webApp := isWebApp files framework
  let hasReq := (dictGet? files (s "requirements.txt")).isSome
  let hasPkg := (dictGet? files (s "package.json")).isSome
  let fwLine :=
    match framework with
    | some f => s "- " ++ f ++ s " framework\n"
    | none => []
  let r := s "# Generated Project\n\n## Description\nThis project was generated by SimpleAgent. Please review the code and customize as needed.\n\n## Technology Stack\n- Language: " ++
    language ++ s "\n" ++
    (match framework with
     | some f => s "- Framework: " ++ f
     | none => []) ++
    s "\n\n## Prerequisites\n"
  let r := r ++
    (if language = s "python" then
      s "- Python 3.8 or higher\n- pip (Python package manager)\n" ++ fwLine
    else if language = s "javascript" || language = s "typescript" then
      s "- Node.js 14.x or higher\n- npm (Node Package Manager)\n" ++ fwLine
    else [])
  let r := r ++ s "\n## Installation\n\n"
  let r := r ++
    (if language = s "python" then
      s "1. Create a virtual environment (recommended):\n   ```bash\n   python -m venv venv\n   \n   # On Windows:\n   venv\\Scripts\\activate\n   \n   # On macOS/Linux:\n   source venv/bin/activate\n   ```\n\n2. Install dependencies:\n   ```bash\n   pip install -r requirements.txt\n   ```\n"
    else if language = s "javascript" || language = s "typescript" then
      s "1. Install dependencies:\n   ```bash\n   npm install\n   ```\n"
    else [])
  let r := r ++ s "\n## How to Run\n\n"
  let r := r ++
    (if webApp then
      if fwIs framework (s "fastapi") then
        s "Run the FastAPI application:\n   ```bash\n   uvicorn main:app --reload\n   ```\n   \n   Or if using app.py:\n   ```bash\n   uvicorn app:app --reload\n   ```\n   \n   The application will be available at: http://localhost:8000\n"
      else if fwIs framework (s "flask") then
        s "Run the Flask application:\n   ```bash\n   python " ++
          mainFile.getD (s "app.py") ++
          s "\n   ```\n   \n   The application will be available at: http://localhost:5000\n"
      else if fwIs framework (s "express") then
        s "Run the Express server:\n   ```bash\n   npm start\n   ```\n   \n   Or:\n   ```bash\n   node main.js\n   ```\n   \n   The server will be available at: http://localhost:3000\n"
      else
        match mainFile with
        | some mf =>
          if language = s "python" then
            s "Run the application:\n   ```bash\n   python " ++ mf ++ s "\n   ```\n"
          else
            s "Run the application:\n   ```bash\n   node " ++ mf ++ s "\n   ```\n"
        | none => []
    else
      match mainFile with
      | some mf =>
        if language = s "python" then
          s "Run the script:\n   ```bash\n   python " ++ mf ++ s "\n   ```\n"
        else
          s "Run the script:\n   ```bash\n   node " ++ mf ++ s "\n   ```\n"
      | none =>
        s "Run the main file:\n   ```bash\n   python main.py\n   ```\n   (Adjust the command based on your main entry point)\n")
  let r := r ++ s "\n## Project Structure\n\n" ++ s "Key files in this project:\n\n"
  let r := r ++
    (((sortKeys (files.map Prod.fst)).take 10).map
      (fun k => s "- `" ++ k ++ s "`\n")).join
  let r := r ++ s "\n## Usage\n\n" ++
    s "Please refer to the code comments and implementation for usage details.\n"
  let r := r ++ s "\n## Notes\n\n" ++
    s "- This code was automatically generated. Please review and test before production use.\n" ++
    s "- Make sure all dependencies are installed before running.\n"
  if !hasReq && !hasPkg then
    r ++ s "- **Important**: Dependencies file may be missing. Please check and add required packages.\n"
  else r

/-- The `{files, structure}` record returned by the Response Parser (the
`structure` field is spelled `struct`, the source name being a Lean keyword). -/
structure ParseResult where
  files : List (List Char × List Char)
  struct : STree

/-- `SimpleAgent._parse_codebase_response`: single-pass scan; alternative
extraction if the scan produced nothing; explicit empty hand-off if still
nothing; README synthesis when no README-like key exists; then the structure
tree, whose `TypeError` propagates as the error case. -/
def parseCodebaseResponse (content : List Char) (a : Analysis) : Except Unit ParseResult :=
  let files0 := parseScan content
  let files1 := if files0 = [] then parseAlternativeFormat content a else files0
  if files1 = [] then .ok { files := [], struct := .dir [] }
  else
    let readmeExists := files1.any (fun kv =>
      (s "readme.md").isSuffixOf (lowerL kv.1) || lowerL kv.1 = s "readme.md")
    let files2 :=
      if readmeExists then files1
      else dictSet files1 (s "README.md")
        (generateComprehensiveReadme files1 a.language a.framework)
    match buildStructureTree files2 with
    | .ok t => .ok { files := files2, struct := t }
    | .error e => .error e

/-- `SimpleAgent._extract_requirements`: one bullet per matched topical
keyword group, with a generic bullet when nothing matches. -/
def extractRequirements (query : List Char) : List Char :=
  let ql := lowerL query
  let reqs : List (List Char) :=
    (if occursIn (s "authentication") ql || occursIn (s "login") ql ||
        occursIn (s "auth") ql then
      [s "- User authentication/login functionality"] else []) ++
    (if occursIn (s "database") ql || occursIn (s "db") ql || occursIn (s "sql") ql then
      [s "- Database integration"] else []) ++
    (if occursIn (s "api") ql || occursIn (s "rest") ql || occursIn (s "endpoint") ql then
      [s "- API endpoints/REST API"] else []) ++
    (if occursIn (s "crud") ql || occursIn (s "create") ql || occursIn (s "read") ql ||
        occursIn (s "update") ql || occursIn (s "delete") ql then
      [s "- CRUD operations"] else []) ++
    (if occursIn (s "todo") ql || occursIn (s "task") ql then
      [s "- Todo/task management features"] else []) ++
    (if occursIn (s "web") ql || occursIn (s "website") ql || occursIn (s "html") ql then
      [s "- Web interface/HTML pages"] else []) ++
    (if occursIn (s "visualization") ql || occursIn (s "chart") ql ||
        occursIn (s "graph") ql || occursIn (s "plot") ql then
      [s "- Data visualization/charts"] else []) ++
    (if occursIn (s "csv") ql || occursIn (s "excel") ql || occursIn (s "data") ql then
      [s "- Data file processing"] else []) ++
    (if occursIn (s "cli") ql || occursIn (s "command") ql || occursIn (s "terminal") ql then
      [s "- Command-line interface"] else [])
  let reqs :=
    if reqs = [] then
      [s "- Implement the functionality described in the user\x27s request"]
    else reqs
  joinNl reqs

/-- `SimpleAgent._generate_python_code`. -/
def generatePythonCode (query : List Char) (requirements : List Char)
    (framework : Option (List Char)) : List Char :=
  let ql := lowerL query
  let part0 := s "\"\"\"\nGenerated by SimpleAgent\nQuery: " ++ query ++ s "\n\"\"\"\n"
  let imports : List (List Char) :=
    (if occursIn (s "api") ql || occursIn (s "rest") ql then
      (if fwIs framework (s "fastapi") then
        [s "from fastapi import FastAPI, HTTPException", s "from pydantic import BaseModel"]
      else if fwIs framework (s "flask") then
        [s "from flask import Flask, request, jsonify"]
      else
        [s "from http.server import HTTPServer, BaseHTTPRequestHandler", s "import json"])
    else []) ++
    (if occursIn (s "database") ql || occursIn (s "db") ql || occursIn (s "sql") ql then
      [s "import sqlite3", s "import os"] else []) ++
    (if occursIn (s "csv") ql || occursIn (s "data") ql then
      [s "import csv", s "import pandas as pd"] else []) ++
    (if occursIn (s "authentication") ql || occursIn (s "login") ql ||
        occursIn (s "auth") ql then
      [s "import hashlib", s "import secrets"] else []) ++
    (if occursIn (s "todo") ql || occursIn (s "task") ql then
      [s "from datetime import datetime", s "from typing import List, Dict, Optional"]
    else [])
  let headParts := [part0] ++ (if imports ≠ [] then [joinNl imports, []] else [])
  let bodyParts : List (List Char) :=
    if fwIs framework (s "fastapi") then
      [s "app = FastAPI(title=\"Generated Application\")\n",
       s "@app.get(\"/\")\ndef read_root():\n    return \x7b\"message\": \"Application is running\"\x7d\n",
       s "@app.get(\"/health\")\ndef health_check():\n    return \x7b\"status\": \"healthy\"\x7d\n"]
    else if fwIs framework (s "flask") then
      [s "app = Flask(__name__)\n",
       s "@app.route(\x27/\x27)\ndef index():\n    return jsonify(\x7b\"message\": \"Application is running\"\x7d)\n"]
    else
      [s "def main():",
       s "    \"\"\"Main function implementing the requested functionality\"\"\""] ++
      (if occursIn (s "todo") ql || occursIn (s "task") ql then
        [s "    # Todo list functionality",
         s "    todos = []",
         s "    print(\"Todo list application initialized\")"]
      else if occursIn (s "api") ql then
        [s "    # API functionality",
         s "    print(\"API server would start here\")"]
      else if occursIn (s "database") ql then
        [s "    # Database functionality",
         s "    print(\"Database operations would be performed here\")"]
      else
        [s "    # Implement: " ++ query.take 100,
         s "    print(\"Application started\")"]) ++
      [[], s "if __name__ == \"__main__\":", s "    main()"]
  joinNl (headParts ++ bodyParts)

/-- `SimpleAgent._generate_js_code`. -/
def generateJsCode (query : List Char) (requirements : List Char)
    (framework : Option (List Char)) (ext : List Char) : List Char :=
  let ql := lowerL query
  let headParts : List (List Char) :=
    if ext = s "ts" then
      [s "// Generated by SimpleAgent",
       s "// Query: " ++ query ++ s "\n",
       s "interface Config \x7b",
       s "  // Add configuration interface here",
       s "\x7d\n"]
    else
      [s "// Generated by SimpleAgent",
       s "// Query: " ++ query ++ s "\n"]
  let bodyParts : List (List Char) :=
    if fwIs framework (s "react") then
      [s "import React from \x27react\x27;\n",
       s "function App() \x7b",
       s "  return (",
       s "    <div className=\"App\">",
       s "      <h1>Generated Application</h1>",
       s "    </div>",
       s "  );",
       s "\x7d\n",
       s "export default App;"]
    else if fwIs framework (s "express") || occursIn (s "api") ql then
      [s "const express = require(\x27express\x27);",
       s "const app = express();\n",
       s "app.use(express.json());\n",
       s "app.get(\x27/\x27, (req, res) => \x7b",
       s "  res.json(\x7b message: \x27Application is running\x27 \x7d);",
       s "\x7d);\n",
       s "const PORT = process.env.PORT || 3000;",
       s "app.listen(PORT, () => \x7b",
       s "  console.log(`Server running on port $\x7bPORT\x7d`);",
       s "\x7d);"]
    else
      [s "// Main application code",
       s "function main() \x7b",
       s "  // Implement: " ++ query.take 80,
       s "  console.log(\x27Application started\x27);",
       s "\x7d\n",
       s "main();"]
  joinNl (headParts ++ bodyParts)

/-- `SimpleAgent._generate_dependencies`. -/
def generateDependencies (requirements : List Char) (language : List Char)
    (framework : Option (List Char)) : List Char :=
  let rl := lowerL requirements
  let deps : List (List Char) :=
    if language = s "python" then
      let d1 :=
        (if fwIs framework (s "fastapi") then
          [s "fastapi==0.104.1", s "uvicorn[standard]==0.24.0"]
        else if fwIs framework (s "flask") then [s "flask==3.0.0"] else []) ++
        (if occursIn (s "database") rl || occursIn (s "sql") rl then
          [s "sqlalchemy==2.0.23"] else []) ++
        (if occursIn (s "csv") rl || occursIn (s "data") rl then
          [s "pandas==2.1.3"] else [])
      if d1 = [] then [s "# Add your dependencies here"] else d1
    else []
  if deps ≠ [] then joinNl deps else s "# No specific dependencies identified"

/-- `SimpleAgent._generate_package_json`. -/
def generatePackageJson (requirements : List Char)
    (framework : Option (List Char)) : List Char :=
  let rl := lowerL requirements
  let deps : List (List Char × List Char) :=
    (if fwIs framework (s "express") || occursIn (s "api") rl then
      [(s "express", s "^4.18.2")] else []) ++
    (if fwIs framework (s "react") then
      [(s "react", s "^18.2.0"), (s "react-dom", s "^18.2.0")] else [])
  let depsStr := joinWith (s ",\n    ")
    (deps.map (fun kv => s "\"" ++ kv.1 ++ s "\": \"" ++ kv.2 ++ s "\""))
  s "\x7b\n  \"name\": \"generated-project\",\n  \"version\": \"1.0.0\",\n  \"description\": \"Generated by SimpleAgent\",\n  \"main\": \"main.js\",\n  \"scripts\": \x7b\n    \"start\": \"node main.js\"\n  \x7d,\n  \"dependencies\": \x7b\n    " ++
  (if !depsStr.isEmpty then depsStr else s "// Add dependencies here") ++
  s "\n  \x7d\n\x7d"

/-- `SimpleAgent._generate_readme`, the fully-synthetic README variant. -/
def generateReadme (query requirements language : List Char)
    (framework : Option (List Char)) : List Char :=
  let r := s "# Generated Project\n\n## Description\nThis project was generated by SimpleAgent based on the following request:\n\n" ++
    query ++ s "\n\n## Requirements Identified\n" ++ requirements ++
    s "\n\n## Technology Stack\n- Language: " ++ language ++ s "\n" ++
    (match framework with
     | some f => s "- Framework: " ++ f
     | none => []) ++
    s "\n\n## Setup Instructions\n\n### Prerequisites\n- " ++
    pyCapitalize language ++ s " installed\n" ++
    (match framework with
     | some f => s "- " ++ f ++ s " framework"
     | none => []) ++
    s "\n\n### Installation\n"
  let r := r ++
    (if language = s "python" then
      s "1. Create a virtual environment (recommended):\n   ```bash\n   python -m venv venv\n   source venv/bin/activate  # On Windows: venv\\Scripts\\activate\n   ```\n\n2. Install dependencies:\n   ```bash\n   pip install -r requirements.txt\n   ```\n\n3. Run the application:\n   ```bash\n   python main.py\n   ```\n"
    else if language = s "javascript" || language = s "typescript" then
      s "1. Install dependencies:\n   ```bash\n   npm install\n   ```\n\n2. Run the application:\n   ```bash\n   npm start\n   # or\n   node main.js\n   ```\n"
    else [])
  r ++ s "\n## Implementation Notes\nThis code was generated based on your query. Please review and customize as needed to fully implement all requirements.\n\n## Next Steps\n1. Review the generated code\n2. Implement any missing functionality\n3. Add tests\n4. Customize based on your specific needs\n"

/-- The files mapping assembled by `SimpleAgent._generate_enhanced_fallback`
(whose unused third parameter `existing_result` is omitted). -/
def fallbackFiles (query : List Char) (a : Analysis) : List (List Char × List Char) :=
  let language := a.language
  let framework := a.framework
  let requirements := extractRequirements query
  let files0 : List (List Char × List Char) :=
    if language = s "python" then
      dictSet (dictSet [] (s "main.py") (generatePythonCode query requirements framework))
        (s "requirements.txt") (generateDependencies requirements language framework)
    else if language = s "javascript" || language = s "typescript" then
      let ext := if language = s "typescript" then s "ts" else s "js"
      dictSet (dictSet [] (s "main." ++ ext) (generateJsCode query requirements framework ext))
        (s "package.json") (generatePackageJson requirements framework)
    else
      dictSet [] (s "main." ++ language)
        (s "// Generated by SimpleAgent\n// Query: " ++ query ++
          s "\n// Implement the requested functionality here")
  dictSet files0 (s "README.md") (generateReadme query requirements language framework)

/-- `SimpleAgent._generate_enhanced_fallback`: the deterministic Fallback
Synthesizer, ending in the same structure-tree build as the parser. -/
def generateEnhancedFallback (query : List Char) (a : Analysis) : Except Unit ParseResult :=
  match buildStructureTree (fallbackFiles query a) with
  | .ok t => .ok { files := fallbackFiles query a, struct := t }
  | .error e => .error e

/-- Shape of a Gemini reply as probed by `_generate_with_gemini`: a direct
`text` field, a `candidates` array, or neither (which raises `ValueError`). -/
inductive GeminiReply where
  | direct : List Char → GeminiReply
  | candidates : List Char → GeminiReply
  | malformed : GeminiReply

/-- The outcome of one provider adapter call. -/
inductive GenOutcome where
  | code : ParseResult → GenOutcome
  | text : List Char → GenOutcome

/-- The inline error text head of the adapters' except branches. -/
def errorReplyIntro : List Char := s "Error generating response: "

/-- The codebase path of `_generate_with_openai`: parse a successful reply
(its `TypeError` is caught by the same `except`), fall back on any error. -/
def openaiCodePath (reply : Except (List Char) (List Char)) (query : List Char)
    (a : Analysis) : Except Unit ParseResult :=
  match reply with
  | .ok content =>
    match parseCodebaseResponse content a with
    | .ok r => .ok r
    | .error _ => generateEnhancedFallback query a
  | .error _ => generateEnhancedFallback query a

/-- `SimpleAgent._generate_with_openai`, with the provider call abstracted as
its outcome: raw text, or the exception text it raised. -/
def generateWithOpenai (reply : Except (List Char) (List Char)) (query : List Char)
    (a : Analysis) (codebase : Bool) : Except Unit GenOutcome :=
  if codebase then (openaiCodePath reply query a).map GenOutcome.code
  else
    match reply with
    | .ok content => .ok (.text content)
    | .error e => .ok (.text (errorReplyIntro ++ e))

/-- The codebase path of `_generate_with_anthropic` (same recovery logic). -/
def anthropicCodePath (reply : Except (List Char) (List Char)) (query : List Char)
    (a : Analysis) : Except Unit ParseResult :=
  match reply with
  | .ok content =>
    match parseCodebaseResponse content a with
    | .ok r => .ok r
    | .error _ => generateEnhancedFallback query a
  | .error _ => generateEnhancedFallback query a

/-- `SimpleAgent._generate_with_anthropic`, provider call abstracted. -/
def generateWithAnthropic (reply : Except (List Char) (List Char)) (query : List Char)
    (a : Analysis) (codebase : Bool) : Except Unit GenOutcome :=
  if codebase then (anthropicCodePath reply query a).map GenOutcome.code
  else
    match reply with
    | .ok content => .ok (.text content)
    | .error e => .ok (.text (errorReplyIntro ++ e))

/-- The reply-shape probe of `_generate_with_gemini`: direct field, then
candidates array, else the `ValueError` text. -/
def geminiExtract : GeminiReply → Except (List Char) (List Char)
  | .direct c => .ok c
  | .candidates c => .ok c
  | .malformed => .error (s "Unable to extract text from Gemini response")

/-- The codebase path of `_generate_with_gemini`: extraction failure is
raised inside the same `try` and so also recovered by the fallback. -/
def geminiCodePath (reply : Except (List Char) GeminiReply) (query : List Char)
    (a : Analysis) : Except Unit ParseResult :=
  match reply with
  | .ok g =>
    match geminiExtract g with
    | .ok content =>
      match parseCodebaseResponse content a with
      | .ok r => .ok r
      | .error _ => generateEnhancedFallback query a
    | .error _ => generateEnhancedFallback query a
  | .error _ => generateEnhancedFallback query a

/-- `SimpleAgent._generate_with_gemini`, provider call abstracted. -/
def generateWithGemini (reply : Except (List Char) GeminiReply) (query : List Char)
    (a : Analysis) (codebase : Bool) : Except Unit GenOutcome :=
  if codebase then (geminiCodePath reply query a).map GenOutcome.code
  else
    match reply with
    | .ok g =>
      match geminiExtract g with
      | .ok content => .ok (.text content)
      | .error e => .ok (.text (errorReplyIntro ++ e))
    | .error e => .ok (.text (errorReplyIntro ++ e))

/-- The three `use_*` flags set in `SimpleAgent.__init__`. -/
structure ProviderFlags where
  useOpenai : Bool
  useAnthropic : Bool
  useGemini : Bool

/-- The provider selection of `SimpleAgent.__init__` from credential
presence (priority: OpenAI > Anthropic > Google). -/
def selectProviders (openaiKey anthropicKey googleKey : Bool) : ProviderFlags :=
  let uo := openaiKey
  let ua := anthropicKey && !uo
  { useOpenai := uo
    useAnthropic := ua
    useGemini := googleKey && !uo && !ua }

/-- `SimpleAgent._generate_codebase`: call the selected provider's adapter,
replace empty or fallback-quality results wholesale, and go straight to the
Fallback Synthesizer when no provider is selected. -/
def generateCodebase (flags : ProviderFlags)
    (openaiReply anthropicReply : Except (List Char) (List Char))
    (geminiReply : Except (List Char) GeminiReply)
    (query : List Char) (a : Analysis) : Except Unit ParseResult :=
  if flags.useOpenai then
    match openaiCodePath openaiReply query a with
    | .ok r =>
      if r.files = [] || isFallbackCode r.files then generateEnhancedFallback query a
      else .ok r
    | .error e => .error e
  else if flags.useAnthropic then
    match anthropicCodePath anthropicReply query a with
    | .ok r =>
      if r.files = [] || isFallbackCode r.files then generateEnhancedFallback query a
      else .ok r
    | .error e => .error e
  else if flags.useGemini then
    match geminiCodePath geminiReply query a with
    | .ok r =>
      if r.files = [] || isFallbackCode r.files then generateEnhancedFallback query a
      else .ok r
    | .error e => .error e
  else generateEnhancedFallback query a

/-- A fixed Analysis value (as produced for a plain code query) used as the
concrete analysis argument of the evaluation theorems. -/
def exampleAnalysis : Analysis :=
  { shouldGenerateCode := true
    codeScore := 1
    textScore := 0
    language := s "python"
    framework := none
    reason := s "Code generation suitable" }

/-- The safety predicate of the files-keys invariant: not an absolute path
and no `..` traversal segment. -/
def safeRelativePath (k : List Char) : Bool :=
  !((s "/").isPrefixOf k) && !((splitOnChar '/' k).any (fun seg => seg = s ".."))

end SimpleAgent

namespace SimpleAgent

/-- Counterexample to claim C1 as stated: on a single placeholder-matching
file under 200 characters with 10 non-comment lines, the code's quality gate
says not-fallback while the claim's formula says fallback (placeholder
matching never by itself makes a result fallback in the code; it can only
rescue it). -/
theorem quality_gate_spec_mismatch :
    isFallbackCode c1CexFiles = false ∧ specC1FallbackQuality c1CexFiles = true := by
  constructor <;> decide

/-- Claim C1 amended: a parse result is fallback-quality exactly when the
files mapping is empty, or else no file both matches a placeholder pattern
(five patterns, `print(` followed by `Hello` included) and is substantial
(over 200 characters, or a declaration keyword with more than five
non-comment lines), and the summed non-comment/non-blank line count is below
10. Hence a single-file result with exactly 10 non-comment lines is never
fallback-quality, and one with exactly 9 is fallback-quality unless it is a
placeholder-matching substantial file. -/
theorem quality_gate_characterization :
    (∀ files, isFallbackCode files = true ↔
      files = [] ∨
        ((∀ kv ∈ files, ¬(placeholderHit kv.2 = true ∧ substantialFile kv.2 = true)) ∧
          totalCodeLines files < 10)) ∧
    (∀ name content, codeLineCount content = 9 →
      isFallbackCode [(name, content)] = !(placeholderHit content && substantialFile content)) ∧
    (∀ name content, codeLineCount content = 10 →
      isFallbackCode [(name, content)] = false) := by
  have hchar : ∀ files, isFallbackCode files = true ↔
      files = [] ∨
        ((∀ kv ∈ files, ¬(placeholderHit kv.2 = true ∧ substantialFile kv.2 = true)) ∧
          totalCodeLines files < 10) := by
    intro files
    unfold isFallbackCode
    by_cases h : files = []
    · simp [h]
    · by_cases ha : files.any (fun kv => placeholderHit kv.2 && substantialFile kv.2)
      · rcases List.any_eq_true.mp ha with ⟨kv, hmem, hkv⟩
        rw [Bool.and_eq_true] at hkv
        simp only [if_neg h, ha, if_true]
        constructor
        · intro hf; exact absurd hf (by simp)
        · rintro (hc | ⟨hall, _⟩)
          · exact absurd hc h
          · exact absurd ⟨hkv.1, hkv.2⟩ (hall kv hmem)
      · rw [if_neg h, if_neg ha]
        simp only [decide_eq_true_eq]
        constructor
        · intro ht
          refine Or.inr ⟨?_, ht⟩
          intro kv hmem hkv
          exact ha (List.any_eq_true.mpr ⟨kv, hmem, by simp [hkv.1, hkv.2]⟩)
        · rintro (hc | ⟨_, ht⟩)
          · exact absurd hc h
          · exact ht
  refine ⟨hchar, ?_, ?_⟩
  · intro name content h9
    by_cases hp : placeholderHit content && substantialFile content
    · simp only [hp, Bool.not_true]
      rw [Bool.and_eq_true] at hp
      have : ¬(isFallbackCode [(name, content)] = true) := by
        rw [hchar]
        rintro (hc | ⟨hall, _⟩)
        · exact absurd hc (by simp)
        · exact hall (name, content) (by simp) ⟨hp.1, hp.2⟩
      exact Bool.eq_false_iff.mpr this
    · simp only [hp, Bool.not_false]
      rw [hchar]
      refine Or.inr ⟨?_, ?_⟩
      · rintro kv hmem ⟨h1, h2⟩
        rcases List.mem_singleton.mp hmem with rfl
        exact hp (by simp [h1, h2])
      · simp [totalCodeLines, h9]
  · intro name content h10
    have : ¬(isFallbackCode [(name, content)] = true) := by
      rw [hchar]
      rintro (hc | ⟨_, ht⟩)
      · exact absurd hc (by simp)
      · simp [totalCodeLines, h10] at ht
    exact Bool.eq_false_iff.mpr this

/-- Claim C2: for every query string (including the empty string), the
Classifier sets `should_generate_code` to true exactly when
`code_score > text_score` and `code_score > 0`; in particular, whenever
`code_score = text_score` (including both zero), `should_generate_code`
is false. -/
theorem classifier_decision_rule (query : List Char) :
    ((analyzeQuery query).shouldGenerateCode = true ↔
      (analyzeQuery query).codeScore > (analyzeQuery query).textScore ∧
        (analyzeQuery query).codeScore > 0) ∧
    ((analyzeQuery query).codeScore = (analyzeQuery query).textScore →
      (analyzeQuery query).shouldGenerateCode = false) := by
  constructor
  · simp [analyzeQuery]
  · intro h
    simp only [analyzeQuery] at h ⊢
    simp only [Bool.and_eq_false_iff, decide_eq_false_iff_not, not_lt]
    omega

/-- Membership in `takeWhile p` implies `p`. -/
theorem mem_takeWhile_sat {p : Char → Bool} {l : List Char} {c : Char}
    (h : c ∈ l.takeWhile p) : p c = true := by
  induction l with
  | nil => simp [List.takeWhile] at h
  | cons a t ih =>
    by_cases pa : p a = true
    · rw [List.takeWhile_cons, if_pos pa] at h
      rcases List.mem_cons.mp h with rfl | hm
      · exact pa
      · exact ih hm
    · rw [List.takeWhile_cons, if_neg pa] at h
      simp at h

/-- The head of `dropWhile p` does not satisfy `p`. -/
theorem head_dropWhile_nsat (p : Char → Bool) (l : List Char) (c : Char)
    (h : (l.dropWhile p).head? = some c) : p c = false := by
  induction l with
  | nil => simp [List.dropWhile] at h
  | cons a t ih =>
    by_cases pa : p a = true
    · rw [List.dropWhile_cons, if_pos pa] at h
      exact ih h
    · rw [List.dropWhile_cons, if_neg pa] at h
      simp only [List.head?_cons, Option.some.injEq] at h
      subst h
      exact Bool.eq_false_iff.mpr pa

/-- `dropWhile` keeps the last element when its result is non-empty. -/
theorem getLast_dropWhile_eq (p : Char → Bool) (l : List Char)
    (h : l.dropWhile p ≠ []) : (l.dropWhile p).getLast? = l.getLast? := by
  induction l with
  | nil => simp [List.dropWhile] at h
  | cons a t ih =>
    by_cases pa : p a = true
    · rw [List.dropWhile_cons, if_pos pa] at h ⊢
      rw [ih h]
      have ht : t ≠ [] := by
        intro he
        rw [he] at h
        simp [List.dropWhile] at h
      cases t with
      | nil => exact absurd rfl ht
      | cons b t2 => simp [List.getLast?_cons_cons]
    · rw [List.dropWhile_cons, if_neg pa]

/-- Any character list splits as whitespace, its strip, and whitespace. -/
theorem strip_decomposition (l : List Char) :
    ∃ pre post,
      (∀ c ∈ pre, isPySpace c = true) ∧ (∀ c ∈ post, isPySpace c = true) ∧
      l = pre ++ stripChars l ++ post := by
  refine ⟨l.takeWhile isPySpace,
    ((l.dropWhile isPySpace).reverse.takeWhile isPySpace).reverse, ?_, ?_, ?_⟩
  · intro c hc
    exact mem_takeWhile_sat hc
  · intro c hc
    exact mem_takeWhile_sat (List.mem_reverse.mp hc)
  · conv_lhs => rw [← List.takeWhile_append_dropWhile (p := isPySpace) (l := l)]
    rw [List.append_assoc]
    congr 1
    have hm : l.dropWhile isPySpace =
        ((l.dropWhile isPySpace).reverse.dropWhile isPySpace).reverse ++
          ((l.dropWhile isPySpace).reverse.takeWhile isPySpace).reverse := by
      rw [← List.reverse_append,
        List.takeWhile_append_dropWhile (p := isPySpace), List.reverse_reverse]
    rw [stripChars]
    exact hm

/-- The strip of any list starts with a non-whitespace character (if any). -/
theorem strip_head_nsat (l : List Char) (c : Char)
    (h : (stripChars l).head? = some c) : isPySpace c = false := by
  rw [stripChars, List.head?_reverse] at h
  have hne : (l.dropWhile isPySpace).reverse.dropWhile isPySpace ≠ [] := by
    intro he
    rw [he] at h
    simp at h
  rw [getLast_dropWhile_eq _ _ hne, List.getLast?_reverse] at h
  exact head_dropWhile_nsat _ _ _ h

/-- The strip of any list ends with a non-whitespace character (if any). -/
theorem strip_last_nsat (l : List Char) (c : Char)
    (h : (stripChars l).getLast? = some c) : isPySpace c = false := by
  rw [stripChars, List.getLast?_reverse] at h
  exact head_dropWhile_nsat _ _ _ h

/-- Counterexample to claim C3 as stated: for a buffer whose single line is
surrounded by spaces, the commit step strips those spaces, while the claim
says leading/trailing whitespace inside the first and last non-blank lines
is preserved. -/
theorem commit_not_blank_line_trim_only :
    commitContent c3CexLines = s "keep" ∧
    specC3Commit c3CexLines = s "  keep  " ∧
    commitContent c3CexLines ≠ specC3Commit c3CexLines := by
  refine ⟨by decide, by decide, by decide⟩

/-- Claim C3 amended: each committed file's content is the accumulated lines
joined with newlines and stripped of all leading and trailing whitespace
characters (so leading/trailing blank lines disappear, but leading/trailing
spaces and tabs of the first and last non-blank lines are removed as well);
no interior character is altered, inserted, or reordered: the joined buffer
is whitespace, then the stored content, then whitespace, and the stored
content neither starts nor ends with a whitespace character. -/
theorem commit_whitespace_decomposition (lines : List (List Char)) :
    ∃ pre post,
      (∀ c ∈ pre, isPySpace c = true) ∧ (∀ c ∈ post, isPySpace c = true) ∧
      joinNl lines = pre ++ commitContent lines ++ post ∧
      (∀ c, (commitContent lines).head? = some c → isPySpace c = false) ∧
      (∀ c, (commitContent lines).getLast? = some c → isPySpace c = false) := by
  obtain ⟨pre, post, h1, h2, h3⟩ := strip_decomposition (joinNl lines)
  exact ⟨pre, post, h1, h2, h3, fun c hc => strip_head_nsat _ c hc,
    fun c hc => strip_last_nsat _ c hc⟩


/-- Looking up the key just set returns the value just set. -/
theorem dictGet_set_self {V : Type} (d : List (List Char × V)) (k : List Char) (v : V) :
    dictGet? (dictSet d k v) k = some v := by
  induction d with
  | nil => simp [dictSet, dictGet?]
  | cons kv rest ih =>
    obtain ⟨k1, v1⟩ := kv
    by_cases hk : k1 = k
    · subst hk
      simp [dictSet, dictGet?]
    · simp only [dictSet, if_neg hk, dictGet?]
      exact ih

/-- Setting one key leaves every other key's lookup unchanged. -/
theorem dictGet_set_ne {V : Type} (d : List (List Char × V)) (k k2 : List Char) (v : V)
    (h : k2 ≠ k) : dictGet? (dictSet d k v) k2 = dictGet? d k2 := by
  have hne : ¬(k = k2) := fun he => h he.symm
  induction d with
  | nil =>
    simp only [dictSet, dictGet?]
    rw [if_neg hne]
  | cons kv rest ih =>
    obtain ⟨k1, v1⟩ := kv
    by_cases hk : k1 = k
    · subst hk
      simp only [dictSet, if_pos rfl, dictGet?]
      rw [if_neg hne, if_neg hne]
    · simp only [dictSet, if_neg hk, dictGet?]
      by_cases hk2 : k1 = k2
      · rw [if_pos hk2, if_pos hk2]
      · rw [if_neg hk2, if_neg hk2]
        exact ih

/-- An empty dict resolves no path to a file leaf. -/
theorem resolve_dirnil_ne_file (qs : List (List Char)) :
    resolve (.dir []) qs ≠ some .file := by
  cases qs with
  | nil => simp [resolve]
  | cons x rest => simp [resolve, dictGet?]

/-- A successful insert into a dict yields a dict. -/
theorem insertPath_dir_shape (d : List (List Char × STree)) (ps : List (List Char))
    (t2 : STree) (h : insertPath (.dir d) ps = .ok t2) : ∃ d2, t2 = .dir d2 := by
  cases ps with
  | nil => simp [insertPath] at h
  | cons x tail =>
    cases tail with
    | nil =>
      simp only [insertPath, Except.ok.injEq] at h
      exact ⟨_, h.symm⟩
    | cons y rest =>
      simp only [insertPath] at h
      cases hx : dictGet? d x with
      | some u =>
        cases hi : insertPath u (y :: rest) with
        | ok v => simp [hx, hi] at h; exact ⟨_, h.symm⟩
        | error e => simp [hx, hi] at h
      | none =>
        cases hi : insertPath (.dir []) (y :: rest) with
        | ok v => simp [hx, hi] at h; exact ⟨_, h.symm⟩
        | error e => simp [hx, hi] at h

/-- After a successful insert, the inserted path resolves to a file leaf. -/
theorem resolve_insertPath_self (ps : List (List Char)) :
    ∀ (t t2 : STree), insertPath t ps = .ok t2 →
      resolve t2 ps = some .file := by
  induction ps with
  | nil =>
    intro t t2 h
    cases t <;> simp [insertPath] at h
  | cons x tail ih =>
    intro t t2 h
    cases t with
    | file => simp [insertPath] at h
    | dir d =>
      cases tail with
      | nil =>
        simp only [insertPath, Except.ok.injEq] at h
        subst h
        simp [resolve, dictGet_set_self]
      | cons y rest =>
        simp only [insertPath] at h
        cases hx : dictGet? d x with
        | some u =>
          cases hi : insertPath u (y :: rest) with
          | ok v =>
            simp only [hx, hi, Except.ok.injEq] at h
            subst h
            simp only [resolve, dictGet_set_self]
            exact ih u v hi
          | error e => simp [hx, hi] at h
        | none =>
          cases hi : insertPath (.dir []) (y :: rest) with
          | ok v =>
            simp only [hx, hi, Except.ok.injEq] at h
            subst h
            simp only [resolve, dictGet_set_self]
            exact ih _ v hi
          | error e => simp [hx, hi] at h

/-- A successful insert preserves every existing file leaf whose path the
inserted path does not properly extend. -/
theorem resolve_insertPath_preserved (ps : List (List Char)) :
    ∀ (t t2 : STree) (qs : List (List Char)),
      insertPath t ps = .ok t2 → resolve t qs = some .file →
      (ps <+: qs → ps = qs) → resolve t2 qs = some .file := by
  induction ps with
  | nil =>
    intro t t2 qs h
    cases t <;> simp [insertPath] at h
  | cons x tail ih =>
    intro t t2 qs h hq hpre
    cases t with
    | file => simp [insertPath] at h
    | dir d =>
      cases qs with
      | nil => simp [resolve] at hq
      | cons z qrest =>
        simp only [resolve] at hq
        cases hz : dictGet? d z with
        | none => rw [hz] at hq; simp at hq
        | some u0 =>
          rw [hz] at hq
          by_cases hzx : z = x
          · subst hzx
            cases tail with
            | nil =>
              have hp1 : [z] <+: z :: qrest := ⟨qrest, rfl⟩
              have hp2 := hpre hp1
              have hq0 : qrest = [] := by
                cases qrest with
                | nil => rfl
                | cons w ws => simp at hp2
              subst hq0
              simp only [insertPath, Except.ok.injEq] at h
              subst h
              simp [resolve, dictGet_set_self]
            | cons y rest =>
              simp only [insertPath, hz] at h
              cases hi : insertPath u0 (y :: rest) with
              | ok v =>
                simp only [hz, hi, Except.ok.injEq] at h
                subst h
                simp only [resolve, dictGet_set_self]
                refine ih u0 v qrest hi hq ?_
                intro hp
                have hc : z :: (y :: rest) <+: z :: qrest :=
                  (List.cons_prefix_cons).mpr ⟨rfl, hp⟩
                have := hpre hc
                exact ((List.cons.injEq _ _ _ _).mp this).2
              | error e => simp [hz, hi] at h
          · cases tail with
            | nil =>
              simp only [insertPath, Except.ok.injEq] at h
              subst h
              simp only [resolve, dictGet_set_ne d x z STree.file hzx, hz]
              exact hq
            | cons y rest =>
              simp only [insertPath] at h
              cases hx : dictGet? d x with
              | some u =>
                cases hi : insertPath u (y :: rest) with
                | ok v =>
                  simp only [hx, hi, Except.ok.injEq] at h
                  subst h
                  simp only [resolve, dictGet_set_ne d x z v hzx, hz]
                  exact hq
                | error e => simp [hx, hi] at h
              | none =>
                cases hi : insertPath (.dir []) (y :: rest) with
                | ok v =>
                  simp only [hx, hi, Except.ok.injEq] at h
                  subst h
                  simp only [resolve, dictGet_set_ne d x z v hzx, hz]
                  exact hq
                | error e => simp [hx, hi] at h

/-- A successful insert creates file leaves only at the inserted path. -/
theorem resolve_insertPath_new (ps : List (List Char)) :
    ∀ (t t2 : STree) (qs : List (List Char)),
      insertPath t ps = .ok t2 → resolve t2 qs = some .file →
      qs = ps ∨ resolve t qs = some .file := by
  induction ps with
  | nil =>
    intro t t2 qs h
    cases t <;> simp [insertPath] at h
  | cons x tail ih =>
    intro t t2 qs h hq
    cases t with
    | file => simp [insertPath] at h
    | dir d =>
      cases tail with
      | nil =>
        simp only [insertPath, Except.ok.injEq] at h
        subst h
        cases qs with
        | nil => simp [resolve] at hq
        | cons z qrest =>
          simp only [resolve] at hq
          by_cases hzx : z = x
          · subst hzx
            rw [dictGet_set_self] at hq
            cases qrest with
            | nil => exact Or.inl rfl
            | cons w ws => simp [resolve] at hq
          · rw [dictGet_set_ne d x z STree.file hzx] at hq
            right
            simp only [resolve]
            exact hq
      | cons y rest =>
        simp only [insertPath] at h
        cases hx : dictGet? d x with
        | some u =>
          cases hi : insertPath u (y :: rest) with
          | ok v =>
            simp only [hx, hi, Except.ok.injEq] at h
            subst h
            cases qs with
            | nil => simp [resolve] at hq
            | cons z qrest =>
              simp only [resolve] at hq
              by_cases hzx : z = x
              · subst hzx
                rw [dictGet_set_self] at hq
                rcases ih u v qrest hi hq with hl | hr
                · exact Or.inl (by rw [hl])
                · right
                  simp only [resolve, hx]
                  exact hr
              · rw [dictGet_set_ne d x z v hzx] at hq
                right
                simp only [resolve]
                exact hq
          | error e => simp [hx, hi] at h
        | none =>
          cases hi : insertPath (.dir []) (y :: rest) with
          | ok v =>
            simp only [hx, hi, Except.ok.injEq] at h
            subst h
            cases qs with
            | nil => simp [resolve] at hq
            | cons z qrest =>
              simp only [resolve] at hq
              by_cases hzx : z = x
              · subst hzx
                rw [dictGet_set_self] at hq
                rcases ih _ v qrest hi hq with hl | hr
                · exact Or.inl (by rw [hl])
                · exact absurd hr (resolve_dirnil_ne_file qrest)
              · rw [dictGet_set_ne d x z v hzx] at hq
                right
                simp only [resolve]
                exact hq
          | error e => simp [hx, hi] at h

/-- An insert succeeds when no proper non-empty prefix of the inserted path
already resolves to a file leaf. -/
theorem insertPath_total (ps : List (List Char)) :
    ∀ (d : List (List Char × STree)), ps ≠ [] →
      (∀ qs, qs <+: ps → qs ≠ ps → qs ≠ [] →
        resolve (.dir d) qs ≠ some .file) →
      ∃ t2, insertPath (.dir d) ps = .ok t2 := by
  induction ps with
  | nil => intro d h _; exact absurd rfl h
  | cons x tail ih =>
    intro d _ hcond
    cases tail with
    | nil => exact ⟨_, rfl⟩
    | cons y rest =>
      cases hx : dictGet? d x with
      | none =>
        have hside : ∀ qs, qs <+: (y :: rest) → qs ≠ (y :: rest) → qs ≠ [] →
            resolve (.dir ([] : List (List Char × STree))) qs ≠ some .file :=
          fun qs _ _ _ => resolve_dirnil_ne_file qs
        obtain ⟨v, hv⟩ := ih [] (by simp) hside
        refine ⟨.dir (dictSet d x v), ?_⟩
        simp only [insertPath, hx, hv]
      | some u =>
        have hu : u ≠ .file := by
          intro he
          subst he
          exact hcond [x] ⟨y :: rest, rfl⟩ (by simp) (by simp)
            (by simp [resolve, hx])
        obtain ⟨d2, hd2⟩ : ∃ d2, u = .dir d2 := by
          cases u with
          | file => exact absurd rfl hu
          | dir d2 => exact ⟨d2, rfl⟩
        subst hd2
        have hside : ∀ qs, qs <+: (y :: rest) → qs ≠ (y :: rest) → qs ≠ [] →
            resolve (.dir d2) qs ≠ some .file := by
          intro qs hq1 hq2 hq3 hres
          refine hcond (x :: qs) ((List.cons_prefix_cons).mpr ⟨rfl, hq1⟩)
            (by simp [hq2]) (by simp) ?_
          simp only [resolve, hx]
          exact hres
        obtain ⟨v, hv⟩ := ih d2 (by simp) hside
        refine ⟨.dir (dictSet d x v), ?_⟩
        simp only [insertPath, hx, hv]

/-- Splitting never yields an empty list of parts. -/
theorem splitOnChar_ne_nil (sep : Char) (l : List Char) : splitOnChar sep l ≠ [] := by
  cases l with
  | nil => simp [splitOnChar]
  | cons c rest =>
    simp only [splitOnChar]
    by_cases h : c = sep
    · simp [h]
    · rw [if_neg h]
      cases hs : splitOnChar sep rest <;> simp

/-- Soundness of the insert loop of `_build_structure_tree`: starting from any
dict with no file leaf at a proper prefix of a pending path, and with pending
paths pairwise free of proper segment-prefix relations, the loop succeeds,
every pending path ends at a file leaf, and every undisturbed existing file
leaf survives. -/
theorem buildTreeAux_sound (ks : List (List Char)) :
    ∀ (d : List (List Char × STree)),
      (∀ k ∈ ks, ∀ qs, qs <+: splitOnChar '/' k → qs ≠ splitOnChar '/' k →
        resolve (.dir d) qs ≠ some .file) →
      (∀ p ∈ ks, ∀ q ∈ ks, splitOnChar '/' p <+: splitOnChar '/' q → p = q) →
      ∃ t2, buildTreeAux (.dir d) ks = .ok t2 ∧
        (∀ k ∈ ks, resolve t2 (splitOnChar '/' k) = some .file) ∧
        (∀ qs, resolve (.dir d) qs = some .file →
          (∀ k ∈ ks, splitOnChar '/' k <+: qs → splitOnChar '/' k = qs) →
          resolve t2 qs = some .file) := by
  induction ks with
  | nil =>
    intro d _ _
    exact ⟨.dir d, rfl, by simp, fun qs hq _ => hq⟩
  | cons k rest ih =>
    intro d H1 H2
    have hne : splitOnChar '/' k ≠ [] := splitOnChar_ne_nil '/' k
    have hcond : ∀ qs, qs <+: splitOnChar '/' k → qs ≠ splitOnChar '/' k →
        qs ≠ [] → resolve (.dir d) qs ≠ some .file :=
      fun qs h1 h2 _ => H1 k (by simp) qs h1 h2
    obtain ⟨t1, ht1⟩ := insertPath_total (splitOnChar '/' k) d hne hcond
    obtain ⟨d1, hd1⟩ := insertPath_dir_shape d _ t1 ht1
    subst hd1
    have H1r : ∀ k2 ∈ rest, ∀ qs, qs <+: splitOnChar '/' k2 →
        qs ≠ splitOnChar '/' k2 → resolve (.dir d1) qs ≠ some .file := by
      intro k2 hk2 qs h1 h2 hres
      rcases resolve_insertPath_new _ _ _ _ ht1 hres with he | hold
      · subst he
        have hk : k = k2 := H2 k (by simp) k2 (by simp [hk2]) h1
        exact h2 (by rw [hk])
      · exact H1 k2 (by simp [hk2]) qs h1 h2 hold
    have H2r : ∀ p ∈ rest, ∀ q ∈ rest,
        splitOnChar '/' p <+: splitOnChar '/' q → p = q :=
      fun p hp q hq => H2 p (by simp [hp]) q (by simp [hq])
    obtain ⟨t2, hb, hleaf, hpres⟩ := ih d1 H1r H2r
    refine ⟨t2, ?_, ?_, ?_⟩
    · simp only [buildTreeAux, ht1]
      exact hb
    · intro k2 hk2
      rcases List.mem_cons.mp hk2 with rfl | hmem
      · have hf : resolve (.dir d1) (splitOnChar '/' k2) = some .file :=
          resolve_insertPath_self _ _ _ ht1
        refine hpres _ hf ?_
        intro k3 hk3 hpre
        have := H2 k3 (by simp [hk3]) k2 (by simp) hpre
        rw [this]
      · exact hleaf k2 hmem
    · intro qs hq G
      have h1 : resolve (.dir d1) qs = some .file :=
        resolve_insertPath_preserved _ _ _ _ ht1 hq (G k (by simp))
      exact hpres qs h1 (fun k2 hk2 => G k2 (by simp [hk2]))

/-- `_build_structure_tree` is total and marks every path as a file leaf when
no path is a proper segment-prefix of another. -/
theorem buildTreeKeys_sound (keys : List (List Char))
    (H : ∀ p ∈ keys, ∀ q ∈ keys, splitOnChar '/' p <+: splitOnChar '/' q → p = q) :
    ∃ t, buildTreeKeys keys = .ok t ∧
      ∀ p ∈ keys, resolve t (splitOnChar '/' p) = some .file := by
  obtain ⟨t, hb, hleaf, _⟩ := buildTreeAux_sound keys []
    (fun k _ qs _ _ => resolve_dirnil_ne_file qs) H
  exact ⟨t, hb, hleaf⟩

/-- The Fallback Synthesizer's structure-tree build always succeeds. -/
theorem fallback_structure_ok (q : List Char) (a : Analysis) :
    ∃ t, buildStructureTree (fallbackFiles q a) = .ok t := by
  obtain ⟨sgc, cs, ts, lang, fw, rs⟩ := a
  by_cases hp : lang = s "python"
  · subst hp
    exact ⟨_, rfl⟩
  · by_cases hjs : lang = s "javascript"
    · subst hjs
      exact ⟨_, rfl⟩
    · by_cases hts : lang = s "typescript"
      · subst hts
        exact ⟨_, rfl⟩
      · have hne : (s "main." ++ lang) ≠ s "README.md" := by
          intro h
          have h2 : (some 'm' : Option Char) = some 'R' := congrArg List.head? h
          simp at h2
        simp only [fallbackFiles, if_neg hp, hjs, hts, decide_False, Bool.or_self,
          Bool.false_eq_true, if_false, dictSet, if_neg hne]
        simp only [buildStructureTree, List.map]
        obtain ⟨t1, h1⟩ := insertPath_total (splitOnChar '/' (s "main." ++ lang)) []
          (splitOnChar_ne_nil _ _) (fun qs _ _ _ => resolve_dirnil_ne_file qs)
        obtain ⟨d1, hd1⟩ := insertPath_dir_shape [] _ t1 h1
        subst hd1
        refine ⟨.dir (dictSet d1 (s "README.md") STree.file), ?_⟩
        simp only [buildTreeKeys, buildTreeAux, h1]
        rfl

/-- The Fallback Synthesizer always succeeds and returns exactly the
assembled files mapping. -/
theorem generateEnhancedFallback_ok (q : List Char) (a : Analysis) :
    ∃ r, generateEnhancedFallback q a = Except.ok r ∧ r.files = fallbackFiles q a := by
  obtain ⟨t, ht⟩ := fallback_structure_ok q a
  refine ⟨{ files := fallbackFiles q a, struct := t }, ?_, rfl⟩
  simp only [generateEnhancedFallback, ht]

/-- Claim C8: the Fallback Synthesizer is total and deterministic — for every
(query, analysis) pair it succeeds (no error case is reachable, and being a
pure function of its two arguments it makes no network call and embeds no
run-dependent data), and any second run yields the identical result. -/
theorem fallback_synthesizer_total_deterministic (q : List Char) (a : Analysis) :
    ∃ r, generateEnhancedFallback q a = Except.ok r ∧
      ∀ r2, generateEnhancedFallback q a = Except.ok r2 → r2 = r := by
  obtain ⟨r, hr, _⟩ := generateEnhancedFallback_ok q a
  refine ⟨r, hr, ?_⟩
  intro r2 h2
  rw [hr] at h2
  injection h2 with h3
  exact h3.symm

/-- Claim C6: every provider-call exception (network/auth error text `e`, or
the malformed Gemini reply shape) is caught: the code path returns the
Fallback Synthesizer's (successful) result, and the prose path returns an
inline reply beginning with the literal error text head. -/
theorem provider_errors_recovered (e query : List Char) (a : Analysis) :
    ∃ r, generateEnhancedFallback query a = Except.ok r ∧
      generateWithOpenai (.error e) query a true = .ok (.code r) ∧
      generateWithAnthropic (.error e) query a true = .ok (.code r) ∧
      generateWithGemini (.error e) query a true = .ok (.code r) ∧
      generateWithGemini (.ok .malformed) query a true = .ok (.code r) ∧
      generateWithOpenai (.error e) query a false = .ok (.text (errorReplyIntro ++ e)) ∧
      generateWithAnthropic (.error e) query a false = .ok (.text (errorReplyIntro ++ e)) ∧
      generateWithGemini (.error e) query a false = .ok (.text (errorReplyIntro ++ e)) ∧
      generateWithGemini (.ok .malformed) query a false =
        .ok (.text (errorReplyIntro ++ s "Unable to extract text from Gemini response")) ∧
      errorReplyIntro = s "Error generating response: " := by
  obtain ⟨r, hr, _⟩ := generateEnhancedFallback_ok query a
  refine ⟨r, hr, ?_, ?_, ?_, ?_, rfl, rfl, rfl, rfl, rfl⟩
  · simp [generateWithOpenai, openaiCodePath, hr, Except.map]
  · simp [generateWithAnthropic, anthropicCodePath, hr, Except.map]
  · simp [generateWithGemini, geminiCodePath, hr, Except.map]
  · simp [generateWithGemini, geminiCodePath, geminiExtract, hr, Except.map]

/-- Claim C7: provider selection at initialization follows descending
priority OpenAI > Anthropic > Gemini, at most one flag is ever true, and
with no credential present the codebase path ignores every provider reply
and goes straight to the Fallback Synthesizer. -/
theorem provider_selection_priority (ok ak gk : Bool)
    (oR aR : Except (List Char) (List Char)) (gR : Except (List Char) GeminiReply)
    (q : List Char) (a : Analysis) :
    (¬((selectProviders ok ak gk).useOpenai = true ∧
        (selectProviders ok ak gk).useAnthropic = true) ∧
     ¬((selectProviders ok ak gk).useOpenai = true ∧
        (selectProviders ok ak gk).useGemini = true) ∧
     ¬((selectProviders ok ak gk).useAnthropic = true ∧
        (selectProviders ok ak gk).useGemini = true)) ∧
    ((selectProviders ok ak gk).useOpenai = ok) ∧
    ((selectProviders ok ak gk).useAnthropic = true ↔ ok = false ∧ ak = true) ∧
    ((selectProviders ok ak gk).useGemini = true ↔
      ok = false ∧ ak = false ∧ gk = true) ∧
    (ok = false → ak = false → gk = false →
      generateCodebase (selectProviders ok ak gk) oR aR gR q a =
        generateEnhancedFallback q a) := by
  cases ok <;> cases ak <;> cases gk <;>
    refine ⟨by decide, by decide, by decide, by decide, ?_⟩ <;>
      intro h1 h2 h3 <;>
        first
          | rfl
          | exact absurd h1 (by decide)
          | exact absurd h2 (by decide)
          | exact absurd h3 (by decide)

/-- Evaluation of claim C4's failing input: for a reply of two loose prose
lines, only the first is stored in the implicit `README.md`; the second is
dropped, not appended (the append branch is dead code behind a guard that is
false as soon as `README.md` exists). -/
theorem loose_prose_drops_later_lines :
    ∃ r, parseCodebaseResponse (s "Alpha\nBeta") exampleAnalysis = Except.ok r ∧
      dictGet? r.files (s "README.md") = some (s "Alpha") ∧
      ¬(dictGet? r.files (s "README.md") = some (s "Alpha\nBeta")) :=
  ⟨_, rfl, rfl, by decide⟩

/-- Counterexample to claim C5 as stated: two language-tagged fenced blocks
with no file markers both open `main.py` — the second overwrites the first
and no `file.py` variant is ever produced. -/
theorem inferred_name_no_file_variant :
    ∃ r, parseCodebaseResponse (s "```python\na = 1\n```\n```python\nb = 2\n```")
        exampleAnalysis = Except.ok r ∧
      r.files.map Prod.fst = [s "main.py", s "README.md"] ∧
      dictGet? r.files (s "main.py") = some (s "b = 2") ∧
      dictGet? r.files (s "file.py") = none :=
  ⟨_, rfl, rfl, rfl, rfl⟩

/-- Claim C5 amended: entering a fenced block with no current target and a
non-empty language tag always opens `main.<ext>` (the `file.<ext>` branch is
unreachable because its guard holds trivially when no target is set), with
extension `txt` for a tag outside the extension table. -/
theorem inferred_target_always_main (st : ScanState) (line : List Char)
    (hb : st.inCodeBlock = false)
    (hcf : truthy st.currentFile = false)
    (hfence : (s "```").isPrefixOf (stripChars line) = true)
    (hlang : stripChars ((stripChars line).drop 3) ≠ []) :
    (scanLine st line).currentFile =
      some (s "main." ++ extOfScanner (stripChars ((stripChars line).drop 3))) ∧
    (scanLine st line).inCodeBlock = true ∧
    (∀ lang2, dictGet? scannerExtMap (lowerL lang2) = none →
      extOfScanner lang2 = s "txt") := by
  have hnf : (s "FILE:").isPrefixOf (stripChars line) = false := by
    by_contra hff
    rw [Bool.not_eq_false] at hff
    obtain ⟨tf, htf⟩ := List.isPrefixOf_iff_prefix.mp hff
    obtain ⟨t3, ht3⟩ := List.isPrefixOf_iff_prefix.mp hfence
    have e1 : (stripChars line).head? = some 'F' := by rw [← htf]; rfl
    have e2 : (stripChars line).head? = some '`' := by rw [← ht3]; rfl
    rw [e1] at e2
    simp at e2
  have hl2 : (stripChars ((stripChars line).drop 3)).isEmpty = false := by
    cases hc : stripChars ((stripChars line).drop 3) with
    | nil => exact absurd hc hlang
    | cons c cs => rfl
  refine ⟨?_, ?_, ?_⟩
  · simp [scanLine, hnf, hfence, hb, hcf, hl2]
  · simp [scanLine, hnf, hfence, hb, hcf, hl2]
  · intro lang2 hnone
    simp [extOfScanner, hnone]

/-- Witness for the amended claim C5 at a concrete scanner step. -/
theorem inferred_target_always_main_witness :
    (scanLine emptyScanState (s "```python")).currentFile = some (s "main.py") ∧
    (scanLine emptyScanState (s "```python")).inCodeBlock = true := by
  have h := inferred_target_always_main emptyScanState
    (s "```python") rfl rfl (by decide) (by decide)
  exact ⟨h.1, h.2.1⟩

/-- Counterexample to claim C9 as stated: a reply whose `FILE:` marker names
a traversal path puts that path verbatim among the files keys. -/
theorem parser_traversal_key_cex :
    ∃ r, parseCodebaseResponse (s "FILE: ../evil.py\nx = 1") exampleAnalysis =
        Except.ok r ∧
      r.files.map Prod.fst = [s "../evil.py", s "README.md"] ∧
      safeRelativePath (s "../evil.py") = false :=
  ⟨_, rfl, rfl, by decide⟩

/-- Claim C9 amended: the relative-path invariant is not enforced on parser
results (see the counterexample), but it does hold for every file key the
Fallback Synthesizer produces, for any language the Classifier can detect. -/
theorem fallback_keys_safe (q : List Char) (a : Analysis)
    (h : a.language ∈ [s "python", s "javascript", s "typescript", s "java",
      s "go", s "rust", s "cpp", s "c"]) :
    ∃ r, generateEnhancedFallback q a = Except.ok r ∧
      ∀ kv ∈ r.files, safeRelativePath kv.1 = true := by
  obtain ⟨r, hr, hf⟩ := generateEnhancedFallback_ok q a
  refine ⟨r, hr, ?_⟩
  rw [hf]
  obtain ⟨sgc, cs, ts, lang, fw, rs⟩ := a
  simp only [List.mem_cons, List.not_mem_nil, or_false] at h
  intro kv hkv
  have h1 := List.mem_map_of_mem Prod.fst hkv
  rcases h with h | h | h | h | h | h | h | h
  · subst h
    have hkeys : (fallbackFiles q
        { shouldGenerateCode := sgc, codeScore := cs, textScore := ts,
          language := s "python", framework := fw, reason := rs }).map Prod.fst =
        [s "main.py", s "requirements.txt", s "README.md"] := rfl
    rw [hkeys] at h1
    simp only [List.mem_cons, List.not_mem_nil, or_false] at h1
    rcases h1 with h2 | h2 | h2 <;> rw [h2] <;> decide
  · subst h
    have hkeys : (fallbackFiles q
        { shouldGenerateCode := sgc, codeScore := cs, textScore := ts,
          language := s "javascript", framework := fw, reason := rs }).map Prod.fst =
        [s "main.js", s "package.json", s "README.md"] := rfl
    rw [hkeys] at h1
    simp only [List.mem_cons, List.not_mem_nil, or_false] at h1
    rcases h1 with h2 | h2 | h2 <;> rw [h2] <;> decide
  · subst h
    have hkeys : (fallbackFiles q
        { shouldGenerateCode := sgc, codeScore := cs, textScore := ts,
          language := s "typescript", framework := fw, reason := rs }).map Prod.fst =
        [s "main.ts", s "package.json", s "README.md"] := rfl
    rw [hkeys] at h1
    simp only [List.mem_cons, List.not_mem_nil, or_false] at h1
    rcases h1 with h2 | h2 | h2 <;> rw [h2] <;> decide
  · subst h
    have hkeys : (fallbackFiles q
        { shouldGenerateCode := sgc, codeScore := cs, textScore := ts,
          language := s "java", framework := fw, reason := rs }).map Prod.fst =
        [s "main.java", s "README.md"] := rfl
    rw [hkeys] at h1
    simp only [List.mem_cons, List.not_mem_nil, or_false] at h1
    rcases h1 with h2 | h2 <;> rw [h2] <;> decide
  · subst h
    have hkeys : (fallbackFiles q
        { shouldGenerateCode := sgc, codeScore := cs, textScore := ts,
          language := s "go", framework := fw, reason := rs }).map Prod.fst =
        [s "main.go", s "README.md"] := rfl
    rw [hkeys] at h1
    simp only [List.mem_cons, List.not_mem_nil, or_false] at h1
    rcases h1 with h2 | h2 <;> rw [h2] <;> decide
  · subst h
    have hkeys : (fallbackFiles q
        { shouldGenerateCode := sgc, codeScore := cs, textScore := ts,
          language := s "rust", framework := fw, reason := rs }).map Prod.fst =
        [s "main.rust", s "README.md"] := rfl
    rw [hkeys] at h1
    simp only [List.mem_cons, List.not_mem_nil, or_false] at h1
    rcases h1 with h2 | h2 <;> rw [h2] <;> decide
  · subst h
    have hkeys : (fallbackFiles q
        { shouldGenerateCode := sgc, codeScore := cs, textScore := ts,
          language := s "cpp", framework := fw, reason := rs }).map Prod.fst =
        [s "main.cpp", s "README.md"] := rfl
    rw [hkeys] at h1
    simp only [List.mem_cons, List.not_mem_nil, or_false] at h1
    rcases h1 with h2 | h2 <;> rw [h2] <;> decide
  · subst h
    have hkeys : (fallbackFiles q
        { shouldGenerateCode := sgc, codeScore := cs, textScore := ts,
          language := s "c", framework := fw, reason := rs }).map Prod.fst =
        [s "main.c", s "README.md"] := rfl
    rw [hkeys] at h1
    simp only [List.mem_cons, List.not_mem_nil, or_false] at h1
    rcases h1 with h2 | h2 <;> rw [h2] <;> decide

/-- Witness for the amended claim C9 at a concrete query and analysis. -/
theorem fallback_keys_safe_witness :
    ∃ r, generateEnhancedFallback (s "build an app") (analyzeQuery (s "")) =
        Except.ok r ∧
      ∀ kv ∈ r.files, safeRelativePath kv.1 = true :=
  fallback_keys_safe (s "build an app") (analyzeQuery (s "")) (by decide)

/-- Claim C10: building the structure tree is total and marks every path's
final segment as a leaf whenever no file path is a proper segment-prefix of
another; and without that precondition the error branch (indexing into an
already-placed leaf marker) is reached from a real parser result containing
both `a` and `a/b`. -/
theorem structure_tree_prefix_free_sound :
    (∀ keys : List (List Char),
      (∀ p ∈ keys, ∀ q2 ∈ keys,
        splitOnChar '/' p <+: splitOnChar '/' q2 → p = q2) →
      ∃ t, buildTreeKeys keys = .ok t ∧
        ∀ p ∈ keys, resolve t (splitOnChar '/' p) = some .file) ∧
    parseCodebaseResponse (s "FILE: a\nx\nFILE: a/b\ny") exampleAnalysis =
      .error () :=
  ⟨fun keys H => buildTreeKeys_sound keys H, rfl⟩
